import Mathlib

/-!
Verification development for the sentence-to-timestamp aligner of
`src/video_functions/timestamp_mapper.py` (`class TimestampMapper`).

The Python code is shallowly embedded: strings become `List Char`,
floating-point seconds become exact rationals (`ℚ`), the word-level
transcription entries become the structure `Word`, and the emitted
per-sentence dictionaries become the structure `MappedSentence`.
`round(x, 2)` is modelled by `round2` on `ℚ`.  The file writes and
`print` calls of the Python code have no effect on the returned value
and are not modelled; `map_sentences_to_timestamps` is given an
explicit `Except` error channel so that claims about raised errors can
be stated (the Python function raises nothing; every branch is `.ok`).
-/

attribute [local semireducible] Rat.add Rat.sub Rat.mul Rat.inv

/-- The character set of the Python `strip('.,!?;:"')` calls
(`timestamp_mapper.py` lines 108 and 117). -/
def isStripChar (c : Char) : Bool :=
  c = '.' || c = ',' || c = '!' || c = '?' || c = ';' || c = ':' || c = '"'

/-- Whitespace recognised by Python `str.split()` with no argument. -/
def isPySpace (c : Char) : Bool :=
  c = ' ' || c = '\t' || c = '\n' || c = '\r' || c = Char.ofNat 11 || c = Char.ofNat 12

/-- Python `str.lower()` (per-character; the repository's data is ASCII). -/
def listLower (s : List Char) : List Char := s.map Char.toLower

/-- Python `str.strip('.,!?;:"')`: drop the listed characters from both ends. -/
def stripPunct (s : List Char) : List Char :=
  ((s.dropWhile isStripChar).reverse.dropWhile isStripChar).reverse

/-- `word_info.get('word', '').lower().strip('.,!?;:"')` applied to a word text. -/
def normToken (s : List Char) : List Char := stripPunct (listLower s)

/-- Python `str.split()`: split on whitespace runs, dropping empty pieces. -/
def pySplitWs (s : List Char) : List (List Char) :=
  let p := s.foldl
    (fun (acc : List (List Char) × List Char) c =>
      if isPySpace c then (if acc.2 = [] then acc else (acc.1 ++ [acc.2], []))
      else (acc.1, acc.2 ++ [c]))
    ([], [])
  if p.2 = [] then p.1 else p.1 ++ [p.2]

/-- Python `' '.join(tokens)`. -/
def joinSpaces (ts : List (List Char)) : List Char := List.intercalate [' '] ts

/-- Python substring containment `pat in s` on strings: `pat` occurs as a
contiguous run inside `s`. -/
def containsSub (pat : List Char) : List Char → Bool
  | [] => pat == []
  | c :: rest => (List.take pat.length (c :: rest) == pat) || containsSub pat rest

/-- One entry of the word-level transcription data: the dictionaries
`{'word': ..., 'start': ..., 'end': ...}` consumed by the mapper.  The
`.get(..., default)` fallbacks of the Python code never fire on entries
that carry all three keys, which the spec declares to be the caller's
responsibility, so the fields are total here. -/
structure Word where
  word : List Char
  start : ℚ
  «end» : ℚ
deriving DecidableEq

/-- Placeholder used for the (never reached) out-of-range list accesses. -/
def dWord : Word := ⟨[], 0, 0⟩

/-- One emitted record of `map_sentences_to_timestamps` (lines 53-59). -/
structure MappedSentence where
  sentence_id : Nat
  sentence : List Char
  start_timestamp : ℚ
  end_timestamp : ℚ
  mid_timestamp : ℚ
deriving DecidableEq

/-- Placeholder used for the (never reached) out-of-range list accesses. -/
def dMapped : MappedSentence := ⟨0, [], 0, 0, 0⟩

/-- Error channel for the alignment call.  The spec names a single error,
`NoTimingDataError`, for the empty-timeline case. -/
inductive AlignError where
  | NoTimingDataError
deriving DecidableEq

/-- Python `round(x, 2)` on the exact-rational model of the times. -/
def round2 (x : ℚ) : ℚ := ((round (x * 100) : ℤ) : ℚ) / 100

/-- The inner confirmation loop of `_find_sentence_timestamps`
(lines 113-121): walk the candidate word indices `ks`, carrying
`match_count`, and report whether `match_count` reaches
`min(3, len(test_words))`.  The index list supplied by the caller is
`range(j, min(j + 10, len(word_data)))`. -/
def confirmRun (wordData : List Word) (testWords : List (List Char)) :
    Nat → List Nat → Bool
  | _, [] => false
  | matchCount, k :: ks =>
    let testWord := normToken ((wordData.getD k dWord).word)
    let mc := if matchCount < testWords.length ∧
        testWord ∈ (testWords.drop matchCount).take 3
      then matchCount + 1 else matchCount
    if min 3 testWords.length ≤ mc then true
    else confirmRun wordData testWords mc ks

/-- The per-candidate test of the outer search loop (lines 106-143): word
`j` starts the sentence iff its normalised text is non-empty, occurs as a
substring of the probe text, and the confirmation loop succeeds from `j`. -/
def matchesAt (wordData : List Word) (searchText : List Char)
    (testWords : List (List Char)) (j : Nat) : Bool :=
  let wordText := normToken ((wordData.getD j dWord).word)
  !wordText.isEmpty && containsSub wordText searchText &&
    confirmRun wordData testWords 0
      (List.range' j (min (j + 10) wordData.length - j))

/-- The outer search loop of `_find_sentence_timestamps` (lines 97-143):
first index `j ≥ start_search_index` at which a match is confirmed.
`search_text` is built from the first five tokens (lines 98-99),
`test_words` from the whole lower-cased sentence (line 114). -/
def findMatch (sentence : List Char) (wordData : List Word)
    (startSearchIndex : Nat) : Option Nat :=
  let searchText := listLower (joinSpaces ((pySplitWs sentence).take 5))
  let testWords := pySplitWs (listLower sentence)
  (List.range' startSearchIndex (wordData.length - startSearchIndex)).find?
    (matchesAt wordData searchText testWords)

/-- The end-time scan (lines 126-134): walk the indices `ms`
(`range(j, min(j + len(sentence_words) + 10, len(word_data)))`), carrying
`words_found`; at the first index `m` with
`words_found >= len(sentence_words) * 0.8` return that word's end time and
`m + 1`; `none` when the window is exhausted first. -/
def endScanFrom (wordData : List Word) (lenS : Nat) :
    Nat → List Nat → Option (ℚ × Nat)
  | _, [] => none
  | wordsFound, m :: ms =>
    if (lenS : ℚ) * (4 / 5) ≤ (wordsFound : ℚ) then
      some ((wordData.getD m dWord).«end», m + 1)
    else endScanFrom wordData lenS (wordsFound + 1) ms

/-- `TimestampMapper._find_sentence_timestamps` (lines 76-158): returns
`(start_time, end_time, next_search_index)`. -/
def findSentenceTimestamps (sentence : List Char) (wordData : List Word)
    (sentenceIndex : Nat) (previousSentences : List MappedSentence)
    (startSearchIndex : Nat) : ℚ × ℚ × Nat :=
  match findMatch sentence wordData startSearchIndex with
  | some j =>
    let startTime := (wordData.getD j dWord).start
    let sentenceWords := pySplitWs sentence
    match endScanFrom wordData sentenceWords.length 0
        (List.range' j (min (j + sentenceWords.length + 10) wordData.length - j)) with
    | some (endTime, nextIdx) => (startTime, endTime, nextIdx)
    | none =>
      (startTime,
       (wordData.getD (min (j + sentenceWords.length) (wordData.length - 1)) dWord).«end»,
       j + sentenceWords.length)
  | none =>
    let startTime :=
      if 0 < sentenceIndex ∧ previousSentences ≠ [] then
        (previousSentences.getLastD dMapped).end_timestamp + 1 / 2
      else 0
    (startTime,
     startTime + max 3 (((pySplitWs sentence).length : ℚ) * (2 / 5)),
     min (startSearchIndex + 50) wordData.length)

/-- The per-sentence loop of `map_sentences_to_timestamps` (lines 41-61):
`acc` is the accumulated `mapped_sentences`, `cursor` the running
`last_word_index`. -/
def mapLoop (wordData : List Word) :
    List (List Char) → Nat → List MappedSentence → Nat → List MappedSentence
  | [], _, acc, _ => acc
  | sentence :: rest, i, acc, cursor =>
    let r := findSentenceTimestamps sentence wordData i acc cursor
    let midTimestamp := r.1 + (r.2.1 - r.1) / 2
    let m : MappedSentence :=
      ⟨i, sentence, round2 r.1, round2 r.2.1, round2 midTimestamp⟩
    mapLoop wordData rest (i + 1) (acc ++ [m]) r.2.2

/-- `TimestampMapper.map_sentences_to_timestamps` (lines 15-74).  The word
list is `transcription_data.get('words', [])`; the `output_dir` parameter
only steers the JSON dump and the `print` calls, which do not affect the
returned value and are not modelled.  The function is given an `Except`
error channel so that claims about raised errors are statable; the Python
code raises nothing, so every branch is `Except.ok`, and the empty-timeline
branch mirrors the early `return []` of lines 35-37. -/
def map_sentences_to_timestamps (cleaned_sentences : List (List Char))
    (transcription_words : List Word) : Except AlignError (List MappedSentence) :=
  match transcription_words with
  | [] => Except.ok []
  | _ => Except.ok (mapLoop transcription_words cleaned_sentences 0 [] 0)

/-- The same per-sentence loop, recording the `start_search_index` value
passed into each `_find_sentence_timestamps` call. -/
def cursorsLoop (wordData : List Word) :
    List (List Char) → Nat → List MappedSentence → Nat → List Nat
  | [], _, _, _ => []
  | sentence :: rest, i, acc, cursor =>
    let r := findSentenceTimestamps sentence wordData i acc cursor
    let midTimestamp := r.1 + (r.2.1 - r.1) / 2
    let m : MappedSentence :=
      ⟨i, sentence, round2 r.1, round2 r.2.1, round2 midTimestamp⟩
    cursor :: cursorsLoop wordData rest (i + 1) (acc ++ [m]) r.2.2

/-- The sequence of Search Cursor values used across the successive
per-sentence alignments of one `map_sentences_to_timestamps` run. -/
def searchCursors (cleaned_sentences : List (List Char))
    (transcription_words : List Word) : List Nat :=
  cursorsLoop transcription_words cleaned_sentences 0 [] 0

/-- The record `mapLoop` emits for the first sentence of a stream. -/
def firstRecord (s1 : List Char) (wordData : List Word) : MappedSentence :=
  ⟨0, s1, round2 (findSentenceTimestamps s1 wordData 0 [] 0).1,
   round2 (findSentenceTimestamps s1 wordData 0 [] 0).2.1,
   round2 ((findSentenceTimestamps s1 wordData 0 [] 0).1 +
     ((findSentenceTimestamps s1 wordData 0 [] 0).2.1 -
      (findSentenceTimestamps s1 wordData 0 [] 0).1) / 2)⟩

/-- The record `mapLoop` emits for the second sentence of a two-sentence
stream. -/
def secondRecord (s1 s2 : List Char) (wordData : List Word) : MappedSentence :=
  ⟨1, s2,
   round2 (findSentenceTimestamps s2 wordData 1 [firstRecord s1 wordData]
     (findSentenceTimestamps s1 wordData 0 [] 0).2.2).1,
   round2 (findSentenceTimestamps s2 wordData 1 [firstRecord s1 wordData]
     (findSentenceTimestamps s1 wordData 0 [] 0).2.2).2.1,
   round2 ((findSentenceTimestamps s2 wordData 1 [firstRecord s1 wordData]
       (findSentenceTimestamps s1 wordData 0 [] 0).2.2).1 +
     ((findSentenceTimestamps s2 wordData 1 [firstRecord s1 wordData]
        (findSentenceTimestamps s1 wordData 0 [] 0).2.2).2.1 -
      (findSentenceTimestamps s2 wordData 1 [firstRecord s1 wordData]
        (findSentenceTimestamps s1 wordData 0 [] 0).2.2).1) / 2)⟩

/-- One entry of the `issues` list of `validate_timestamps` (lines 180-190);
the Python code stores formatted strings, modelled here as tagged values
carrying the same data. -/
inductive Issue where
  | overlap (i : Nat)
  | largeGap (i : Nat) (gap : ℚ)
deriving DecidableEq

/-- The two dictionary shapes returned by `validate_timestamps`: the
early-return of line 171 and the statistics record of lines 197-203. -/
inductive ValidationReport where
  | noData (error : List Char)
  | stats (valid : Bool) (issues : List Issue) (total_sentences : Nat)
      (total_duration : ℚ) (average_sentence_length : ℚ)
deriving DecidableEq

/-- The `valid` field of either report shape. -/
def reportValid : ValidationReport → Bool
  | .noData _ => false
  | .stats v _ _ _ _ => v

/-- `TimestampMapper.validate_timestamps` (lines 160-203). -/
def validate_timestamps (mappedSentences : List MappedSentence) : ValidationReport :=
  match mappedSentences with
  | [] => .noData "No sentences to validate".toList
  | _ =>
    let n := mappedSentences.length
    let overlaps := (List.range' 1 (n - 1)).filterMap fun i =>
      if (mappedSentences.getD i dMapped).start_timestamp <
          (mappedSentences.getD (i - 1) dMapped).end_timestamp
      then some (Issue.overlap i) else none
    let gaps := (List.range' 1 (n - 1)).filterMap fun i =>
      let gap := (mappedSentences.getD i dMapped).start_timestamp -
        (mappedSentences.getD (i - 1) dMapped).end_timestamp
      if 30 < gap then some (Issue.largeGap i gap) else none
    let issues := overlaps ++ gaps
    let totalDuration := (mappedSentences.getLastD dMapped).end_timestamp -
      (mappedSentences.headD dMapped).start_timestamp
    .stats issues.isEmpty issues n totalDuration (totalDuration / (n : ℚ))

/-- The token count `len(sentence.split())` of a sentence. -/
def tokenCount (sentence : List Char) : Nat := (pySplitWs sentence).length

/-- The number of scanned words at which the end-time scan stops: the least
`words_found` with `words_found >= lenS * 0.8` (line 130). -/
def scanThreshold (lenS : Nat) : Nat := (⌈(lenS : ℚ) * (4 / 5)⌉).toNat

/-- `scanThreshold` for a sentence's own token count. -/
def endThreshold (sentence : List Char) : Nat := scanThreshold (tokenCount sentence)

/-- Concrete inputs used by the concrete theorems below: the spec's
exact-match scenario. -/
def sHello : List Char := "Hello world this is a test.".toList

/-- The word timeline of the spec's exact-match scenario. -/
def wordsHello : List Word :=
  [⟨"Hello".toList, 0, 1 / 2⟩, ⟨"world".toList, 1 / 2, 1⟩, ⟨"this".toList, 1, 13 / 10⟩,
   ⟨"is".toList, 13 / 10, 3 / 2⟩, ⟨"a".toList, 3 / 2, 8 / 5⟩, ⟨"test".toList, 8 / 5, 2⟩]

/-- A three-word timeline. -/
def wordsABC : List Word := [⟨"a".toList, 0, 1⟩, ⟨"b".toList, 1, 2⟩, ⟨"c".toList, 2, 3⟩]

/-- A ten-token sentence whose first three tokens match `wordsABC`. -/
def sTen : List Char := "a b c d e f g h i j".toList

/-- A sentence sharing no token with any timeline used here. -/
def sZzz : List Char := "zzz".toList

/-- A six-word, temporally ordered, non-overlapping timeline. -/
def wordsGreek : List Word :=
  [⟨"alpha".toList, 0, 1⟩, ⟨"beta".toList, 1, 2⟩, ⟨"gamma".toList, 2, 3⟩,
   ⟨"delta".toList, 3, 4⟩, ⟨"epsilon".toList, 4, 5⟩, ⟨"zeta".toList, 5, 6⟩]

/-- First spoken phrase of `wordsGreek`. -/
def s1Greek : List Char := "alpha beta gamma".toList

/-- A phrase spoken after the first one in `wordsGreek`. -/
def s2Greek : List Char := "epsilon zeta".toList

/-- The Word invariant of the spec's data model: `end >= start` for every
word and `start` non-decreasing across successive words. -/
def WfTimeline (wordData : List Word) : Prop :=
  (∀ w ∈ wordData, w.start ≤ w.«end») ∧
  List.Chain' (fun a b => a.start ≤ b.start) wordData

/-- A non-overlapping, temporally ordered timeline: every word ends no
later than the next one starts (and each word is well-formed). -/
def OrderedTimeline (wordData : List Word) : Prop :=
  (∀ w ∈ wordData, w.start ≤ w.«end») ∧
  List.Chain' (fun a b => a.«end» ≤ b.start) wordData

/-! ### Helper lemmas -/

theorem round2_mono {x y : ℚ} (h : x ≤ y) : round2 x ≤ round2 y := by
  unfold round2
  have hr : round (x * 100) ≤ round (y * 100) := by
    rw [round_eq, round_eq]
    exact Int.floor_mono (by linarith)
  have hq : ((round (x * 100) : ℤ) : ℚ) ≤ ((round (y * 100) : ℤ) : ℚ) := by
    exact_mod_cast hr
  linarith

theorem round2_add_half (x : ℚ) : round2 (round2 x + 1 / 2) = round2 x + 1 / 2 := by
  unfold round2
  have h1 : (((round (x * 100) : ℤ) : ℚ) / 100 + 1 / 2) * 100
      = ((round (x * 100) + 50 : ℤ) : ℚ) := by
    push_cast
    ring
  rw [h1, round_intCast]
  push_cast
  ring

theorem scanThreshold_le {lenS wf : Nat} :
    scanThreshold lenS ≤ wf ↔ (lenS : ℚ) * (4 / 5) ≤ (wf : ℚ) := by
  unfold scanThreshold
  rw [Int.toNat_le, Int.ceil_le]
  norm_cast

theorem scanThreshold_le_lenS (lenS : Nat) : scanThreshold lenS ≤ lenS := by
  rw [scanThreshold_le]
  have h0 : (0 : ℚ) ≤ (lenS : ℚ) := by positivity
  linarith

theorem endScanFrom_range' (wordData : List Word) (lenS : Nat) :
    ∀ (cnt wf m : Nat),
      endScanFrom wordData lenS wf (List.range' m cnt) =
        if scanThreshold lenS - wf < cnt then
          some ((wordData.getD (m + (scanThreshold lenS - wf)) dWord).«end»,
                m + (scanThreshold lenS - wf) + 1)
        else none := by
  intro cnt
  induction cnt with
  | zero =>
    intro wf m
    simp [endScanFrom]
  | succ n ih =>
    intro wf m
    rw [List.range'_succ]
    by_cases hc : (lenS : ℚ) * (4 / 5) ≤ (wf : ℚ)
    · have hT : scanThreshold lenS - wf = 0 := by
        have := scanThreshold_le.mpr hc
        omega
      simp [endScanFrom, hc, hT]
    · have hT : ¬ scanThreshold lenS ≤ wf := fun h => hc (scanThreshold_le.mp h)
      have hstep : endScanFrom wordData lenS wf (m :: List.range' (m + 1) n)
          = endScanFrom wordData lenS (wf + 1) (List.range' (m + 1) n) := by
        simp [endScanFrom, hc]
      rw [hstep, ih (wf + 1) (m + 1)]
      have h1 : scanThreshold lenS - (wf + 1) < n ↔ scanThreshold lenS - wf < n + 1 := by
        omega
      have h2 : m + 1 + (scanThreshold lenS - (wf + 1)) = m + (scanThreshold lenS - wf) := by
        omega
      rw [h2]
      by_cases h3 : scanThreshold lenS - wf < n + 1
      · rw [if_pos (h1.mpr h3), if_pos h3]
      · rw [if_neg (fun h => h3 (h1.mp h)), if_neg h3]

theorem findMatch_bounds {sentence : List Char} {wordData : List Word} {c j : Nat}
    (h : findMatch sentence wordData c = some j) : c ≤ j ∧ j < wordData.length := by
  unfold findMatch at h
  have hm := List.mem_of_find?_eq_some h
  have := List.mem_range'_1.mp hm
  omega

theorem wf_start_le_end {wordData : List Word} (hwf : WfTimeline wordData)
    {j : Nat} (hj : j < wordData.length) :
    (wordData.getD j dWord).start ≤ (wordData.getD j dWord).«end» := by
  rw [List.getD_eq_getElem _ _ hj]
  exact hwf.1 _ (List.getElem_mem hj)

theorem wf_start_mono {wordData : List Word} (hwf : WfTimeline wordData)
    {i j : Nat} (hij : i ≤ j) (hj : j < wordData.length) :
    (wordData.getD i dWord).start ≤ (wordData.getD j dWord).start := by
  rcases eq_or_lt_of_le hij with rfl | hlt
  · exact le_refl _
  · have hi : i < wordData.length := lt_trans hlt hj
    rw [List.getD_eq_getElem _ _ hi, List.getD_eq_getElem _ _ hj]
    haveI : IsTrans Word (fun a b => a.start ≤ b.start) :=
      ⟨fun _ _ _ h1 h2 => le_trans h1 h2⟩
    have hp : List.Pairwise (fun a b => a.start ≤ b.start) wordData :=
      List.chain'_iff_pairwise.mp hwf.2
    exact (List.pairwise_iff_getElem.mp hp) i j hi hj hlt

theorem ord_end_le_start {wordData : List Word} (hord : OrderedTimeline wordData) :
    ∀ {j i : Nat}, i < j → j < wordData.length →
      (wordData.getD i dWord).«end» ≤ (wordData.getD j dWord).start := by
  intro j
  induction j with
  | zero => intro i h; omega
  | succ j ih =>
    intro i hij hj
    have hjlen : j < wordData.length := by omega
    have hadj : (wordData.getD j dWord).«end» ≤ (wordData.getD (j + 1) dWord).start := by
      have hc := List.chain'_iff_get.mp hord.2 j (by omega)
      rw [List.getD_eq_getElem _ _ hjlen, List.getD_eq_getElem _ _ hj]
      simpa [List.get_eq_getElem] using hc
    rcases Nat.lt_succ_iff_lt_or_eq.mp hij with hlt | rfl
    · have h1 := ih hlt hjlen
      have h2 : (wordData.getD j dWord).start ≤ (wordData.getD j dWord).«end» := by
        rw [List.getD_eq_getElem _ _ hjlen]
        exact hord.1 _ (List.getElem_mem hjlen)
      linarith
    · exact hadj

theorem findST_matched {sentence : List Char} {wordData : List Word}
    {i : Nat} {prev : List MappedSentence} {c j : Nat}
    (h : findMatch sentence wordData c = some j) :
    findSentenceTimestamps sentence wordData i prev c =
      if endThreshold sentence <
          min (j + tokenCount sentence + 10) wordData.length - j then
        ((wordData.getD j dWord).start,
         (wordData.getD (j + endThreshold sentence) dWord).«end»,
         j + endThreshold sentence + 1)
      else
        ((wordData.getD j dWord).start,
         (wordData.getD (min (j + tokenCount sentence) (wordData.length - 1)) dWord).«end»,
         j + tokenCount sentence) := by
  unfold findSentenceTimestamps
  rw [h]
  dsimp only
  rw [endScanFrom_range' wordData (pySplitWs sentence).length
    (min (j + (pySplitWs sentence).length + 10) wordData.length - j) 0 j]
  simp only [Nat.sub_zero, endThreshold, tokenCount]
  by_cases hc : scanThreshold (pySplitWs sentence).length <
      min (j + (pySplitWs sentence).length + 10) wordData.length - j
  · rw [if_pos hc, if_pos hc]
  · rw [if_neg hc, if_neg hc]

theorem findST_fallback {sentence : List Char} {wordData : List Word}
    {i : Nat} {prev : List MappedSentence} {c : Nat}
    (h : findMatch sentence wordData c = none) :
    findSentenceTimestamps sentence wordData i prev c =
      (if 0 < i ∧ prev ≠ [] then (prev.getLastD dMapped).end_timestamp + 1 / 2 else 0,
       (if 0 < i ∧ prev ≠ [] then (prev.getLastD dMapped).end_timestamp + 1 / 2 else 0) +
         max 3 ((tokenCount sentence : ℚ) * (2 / 5)),
       min (c + 50) wordData.length) := by
  unfold findSentenceTimestamps
  rw [h]
  rfl

theorem matched_overshoot {sentence : List Char} {wordData : List Word} {c j : Nat}
    (h : findMatch sentence wordData c = some j)
    (hno : ¬ endThreshold sentence <
      min (j + tokenCount sentence + 10) wordData.length - j) :
    wordData.length ≤ j + tokenCount sentence ∧
    min (j + tokenCount sentence) (wordData.length - 1) = wordData.length - 1 := by
  have hj := findMatch_bounds h
  have hT := scanThreshold_le_lenS (tokenCount sentence)
  unfold endThreshold at hno
  omega

theorem find_end_ge_start {wordData : List Word} (hwf : WfTimeline wordData)
    (sentence : List Char) (i : Nat) (prev : List MappedSentence) (c : Nat) :
    (findSentenceTimestamps sentence wordData i prev c).1 ≤
    (findSentenceTimestamps sentence wordData i prev c).2.1 := by
  cases hm : findMatch sentence wordData c with
  | none =>
    rw [findST_fallback hm]
    have h3 : (3 : ℚ) ≤ max 3 ((tokenCount sentence : ℚ) * (2 / 5)) := le_max_left _ _
    dsimp only
    linarith
  | some j =>
    have hj := findMatch_bounds hm
    rw [findST_matched hm]
    by_cases hc : endThreshold sentence <
        min (j + tokenCount sentence + 10) wordData.length - j
    · rw [if_pos hc]
      dsimp only
      have hlt : j + endThreshold sentence < wordData.length := by omega
      exact le_trans (wf_start_mono hwf (by omega) hlt) (wf_start_le_end hwf hlt)
    · rw [if_neg hc]
      dsimp only
      have hlt : min (j + tokenCount sentence) (wordData.length - 1) < wordData.length := by
        omega
      exact le_trans (wf_start_mono hwf (by omega) hlt) (wf_start_le_end hwf hlt)

theorem next_clamp_mono (sentence : List Char) (wordData : List Word)
    (i : Nat) (prev : List MappedSentence) (c : Nat) :
    min c wordData.length ≤
    min (findSentenceTimestamps sentence wordData i prev c).2.2 wordData.length := by
  cases hm : findMatch sentence wordData c with
  | none =>
    rw [findST_fallback hm]
    dsimp only
    omega
  | some j =>
    have hj := findMatch_bounds hm
    rw [findST_matched hm]
    by_cases hc : endThreshold sentence <
        min (j + tokenCount sentence + 10) wordData.length - j
    · rw [if_pos hc]
      dsimp only
      omega
    · rw [if_neg hc]
      dsimp only
      omega

theorem mapLoop_struct (wordData : List Word) (hwf : WfTimeline wordData) :
    ∀ (ss : List (List Char)) (i : Nat) (acc : List MappedSentence) (c : Nat),
      ∃ tail, mapLoop wordData ss i acc c = acc ++ tail ∧
        tail.length = ss.length ∧
        ∀ k, k < ss.length →
          (tail.getD k dMapped).sentence_id = i + k ∧
          (tail.getD k dMapped).sentence = ss.getD k [] ∧
          (tail.getD k dMapped).start_timestamp ≤ (tail.getD k dMapped).end_timestamp := by
  intro ss
  induction ss with
  | nil =>
    intro i acc c
    exact ⟨[], by simp [mapLoop], rfl, fun k hk => absurd hk (by simp)⟩
  | cons s rest ih =>
    intro i acc c
    obtain ⟨tail, heq, hlen, hget⟩ := ih (i + 1)
      (acc ++ [⟨i, s, round2 (findSentenceTimestamps s wordData i acc c).1,
        round2 (findSentenceTimestamps s wordData i acc c).2.1,
        round2 ((findSentenceTimestamps s wordData i acc c).1 +
          ((findSentenceTimestamps s wordData i acc c).2.1 -
            (findSentenceTimestamps s wordData i acc c).1) / 2)⟩])
      (findSentenceTimestamps s wordData i acc c).2.2
    refine ⟨⟨i, s, round2 (findSentenceTimestamps s wordData i acc c).1,
        round2 (findSentenceTimestamps s wordData i acc c).2.1,
        round2 ((findSentenceTimestamps s wordData i acc c).1 +
          ((findSentenceTimestamps s wordData i acc c).2.1 -
            (findSentenceTimestamps s wordData i acc c).1) / 2)⟩ :: tail, ?_, ?_, ?_⟩
    · rw [show mapLoop wordData (s :: rest) i acc c
          = mapLoop wordData rest (i + 1)
            (acc ++ [⟨i, s, round2 (findSentenceTimestamps s wordData i acc c).1,
              round2 (findSentenceTimestamps s wordData i acc c).2.1,
              round2 ((findSentenceTimestamps s wordData i acc c).1 +
                ((findSentenceTimestamps s wordData i acc c).2.1 -
                  (findSentenceTimestamps s wordData i acc c).1) / 2)⟩])
            (findSentenceTimestamps s wordData i acc c).2.2 from rfl]
      rw [heq]
      simp
    · simpa using hlen
    · intro k hk
      cases k with
      | zero =>
        refine ⟨by simp, by simp, ?_⟩
        simp only [List.getD_cons_zero]
        exact round2_mono (find_end_ge_start hwf s i acc c)
      | succ k =>
        have hk' : k < rest.length := by simpa using hk
        have := hget k hk'
        simp only [List.getD_cons_succ]
        refine ⟨?_, ?_, this.2.2⟩
        · rw [this.1]; omega
        · exact this.2.1

theorem cursorsLoop_head (wordData : List Word) (ss : List (List Char))
    (i : Nat) (acc : List MappedSentence) (c : Nat) :
    (cursorsLoop wordData ss i acc c).head? = ss.head?.map (fun _ => c) := by
  cases ss with
  | nil => rfl
  | cons s rest => rfl

theorem cursorsLoop_clamped_chain (wordData : List Word) :
    ∀ (ss : List (List Char)) (i : Nat) (acc : List MappedSentence) (c : Nat),
      List.Chain' (· ≤ ·)
        ((cursorsLoop wordData ss i acc c).map (fun x => min x wordData.length)) := by
  intro ss
  induction ss with
  | nil => intro i acc c; simp [cursorsLoop]
  | cons s rest ih =>
    intro i acc c
    rw [show cursorsLoop wordData (s :: rest) i acc c
        = c :: cursorsLoop wordData rest (i + 1)
            (acc ++ [⟨i, s, round2 (findSentenceTimestamps s wordData i acc c).1,
              round2 (findSentenceTimestamps s wordData i acc c).2.1,
              round2 ((findSentenceTimestamps s wordData i acc c).1 +
                ((findSentenceTimestamps s wordData i acc c).2.1 -
                  (findSentenceTimestamps s wordData i acc c).1) / 2)⟩])
            (findSentenceTimestamps s wordData i acc c).2.2 from rfl]
    rw [List.map_cons, List.chain'_cons']
    constructor
    · intro y hy
      rw [List.head?_map, cursorsLoop_head] at hy
      cases rest with
      | nil => simp at hy
      | cons r rs =>
        simp only [List.head?_cons, Option.map_some'] at hy
        rw [← Option.some_inj.mp hy]
        exact next_clamp_mono s wordData i acc c
    · exact ih _ _ _

theorem mapLoop_mem_shape (wordData : List Word) :
    ∀ (ss : List (List Char)) (i : Nat) (acc : List MappedSentence) (c : Nat)
      (r : MappedSentence), r ∈ mapLoop wordData ss i acc c →
      r ∈ acc ∨ ∃ s e : ℚ, r.start_timestamp = round2 s ∧ r.end_timestamp = round2 e ∧
        r.mid_timestamp = round2 (s + (e - s) / 2) := by
  intro ss
  induction ss with
  | nil =>
    intro i acc c r hr
    exact Or.inl (by simpa [mapLoop] using hr)
  | cons s rest ih =>
    intro i acc c r hr
    rw [show mapLoop wordData (s :: rest) i acc c
        = mapLoop wordData rest (i + 1)
            (acc ++ [⟨i, s, round2 (findSentenceTimestamps s wordData i acc c).1,
              round2 (findSentenceTimestamps s wordData i acc c).2.1,
              round2 ((findSentenceTimestamps s wordData i acc c).1 +
                ((findSentenceTimestamps s wordData i acc c).2.1 -
                  (findSentenceTimestamps s wordData i acc c).1) / 2)⟩])
            (findSentenceTimestamps s wordData i acc c).2.2 from rfl] at hr
    rcases ih _ _ _ _ hr with hmem | hshape
    · rcases List.mem_append.mp hmem with hacc | hnew
      · exact Or.inl hacc
      · refine Or.inr ⟨(findSentenceTimestamps s wordData i acc c).1,
          (findSentenceTimestamps s wordData i acc c).2.1, ?_, ?_, ?_⟩ <;>
          simp only [List.mem_singleton.mp hnew]
    · exact Or.inr hshape

/-! ### Claim theorems -/

/-- C1, counterexample: the claim says an empty Word Timeline makes the
alignment fail with `NoTimingDataError`.  On the concrete input
`sentences = [sHello]`, `words = []`, the code does not fail: it returns
normally with the empty output list (the early `return []` of
`map_sentences_to_timestamps`), not an error. -/
theorem empty_timeline_no_error_raised :
    map_sentences_to_timestamps [sHello] [] = Except.ok [] ∧
    map_sentences_to_timestamps [sHello] [] ≠
      Except.error AlignError.NoTimingDataError :=
  ⟨rfl, fun h => Except.noConfusion h⟩

/-- C1, amended: if the Word Timeline is empty, the alignment returns
normally with zero TimedSentences (the empty list) and raises nothing,
regardless of the sentence stream supplied. -/
theorem empty_timeline_returns_nil (cleaned_sentences : List (List Char)) :
    map_sentences_to_timestamps cleaned_sentences [] = Except.ok [] := rfl

/-- C2: for every non-empty, well-formed Word Timeline and every sentence
stream, the aligner returns one TimedSentence per input sentence, in input
order (`sentence_id = i`, `sentence = sentences[i]`), and every record has
`end_timestamp >= start_timestamp`. -/
theorem aligner_output_structure {cleaned_sentences : List (List Char)}
    {wordData : List Word} (hne : wordData ≠ []) (hwf : WfTimeline wordData) :
    ∃ out, map_sentences_to_timestamps cleaned_sentences wordData = Except.ok out ∧
      out.length = cleaned_sentences.length ∧
      ∀ k, k < cleaned_sentences.length →
        (out.getD k dMapped).sentence_id = k ∧
        (out.getD k dMapped).sentence = cleaned_sentences.getD k [] ∧
        (out.getD k dMapped).start_timestamp ≤ (out.getD k dMapped).end_timestamp := by
  obtain ⟨tail, heq, hlen, hget⟩ := mapLoop_struct wordData hwf cleaned_sentences 0 [] 0
  cases wordData with
  | nil => exact absurd rfl hne
  | cons w ws =>
    refine ⟨tail, ?_, hlen, fun k hk => ?_⟩
    · rw [show map_sentences_to_timestamps cleaned_sentences (w :: ws)
          = Except.ok (mapLoop (w :: ws) cleaned_sentences 0 [] 0) from rfl]
      rw [heq]
      rfl
    · have := hget k hk
      exact ⟨by rw [this.1]; omega, this.2.1, this.2.2⟩

/-- C2, witness at the concrete exact-match input. -/
theorem aligner_output_structure_witness :
    ∃ out, map_sentences_to_timestamps [sHello] wordsHello = Except.ok out ∧
      out.length = [sHello].length ∧
      ∀ k, k < [sHello].length →
        (out.getD k dMapped).sentence_id = k ∧
        (out.getD k dMapped).sentence = [sHello].getD k [] ∧
        (out.getD k dMapped).start_timestamp ≤ (out.getD k dMapped).end_timestamp :=
  aligner_output_structure (by decide)
    ⟨by decide, by simp only [wordsHello, List.chain'_cons, List.chain'_singleton]; decide⟩

/-- C3, counterexample: the claim says the Search Cursor sequence is
non-decreasing for every input.  With `wordsABC` (3 words) and the
sentences `[sTen, sZzz, sZzz]`, sentence 0 matches at word 0 and, because
the end-scan window is exhausted, the cursor is advanced to
`0 + len(tokens) = 10`, past the timeline; sentence 1 then falls back and
clamps the cursor to `min(10 + 50, 3) = 3`, so the sequence of cursor
values is `[0, 10, 3]`, which decreases from 10 to 3. -/
theorem cursor_sequence_can_decrease :
    searchCursors [sTen, sZzz, sZzz] wordsABC = [0, 10, 3] ∧
    ¬ List.Chain' (· ≤ ·) (searchCursors [sTen, sZzz, sZzz] wordsABC) := by
  constructor
  · decide
  · intro hc
    rw [show searchCursors [sTen, sZzz, sZzz] wordsABC = [0, 10, 3] by decide] at hc
    have h2 := (List.chain'_cons.mp (List.chain'_cons.mp hc).2).1
    omega

/-- C3, amended: for every input, the Search Cursor sequence clamped to
the timeline length (`min(cursor, len(words))`) is non-decreasing; the raw
cursor can decrease only when a matched sentence pushed it beyond the end
of the timeline and a later fallback clamps it back to the timeline
length. -/
theorem clamped_cursor_monotone (cleaned_sentences : List (List Char))
    (wordData : List Word) :
    List.Chain' (· ≤ ·)
      ((searchCursors cleaned_sentences wordData).map
        (fun c => min c wordData.length)) :=
  cursorsLoop_clamped_chain wordData cleaned_sentences 0 [] 0

/-- C4, counterexample: the claim says the Search Cursor is advanced to one
past the word used for `end` also when the scan window is exhausted.  On
`sTen` (10 tokens) against `wordsABC` (3 words), the probe is confirmed at
word 0, the window is exhausted, `end` is taken from word 2 (the last word
of the window), yet the cursor is advanced to `0 + 10 = 10`, not to
`2 + 1 = 3`. -/
theorem end_cursor_not_one_past :
    findMatch sTen wordsABC 0 = some 0 ∧
    findSentenceTimestamps sTen wordsABC 0 [] 0
      = ((wordsABC.getD 0 dWord).start, (wordsABC.getD 2 dWord).«end», 10) ∧
    (2 : Nat) + 1 ≠ 10 :=
  ⟨by decide, by decide, by decide⟩

/-- C4, amended: when the probe is confirmed at word `j`, `start` is word
`j`'s start time, and the end-scan window is
`range(j, min(j + tokenCount + 10, len(words)))`.  If the number of words
consumed reaches 80% of the token count within the window (i.e. the least
such count, `endThreshold`, lies inside it), `end` is the end time of word
`j + endThreshold` and the cursor is advanced to one past that word.
Otherwise `end` is the end time of the last word in the window (the last
word of the timeline) and the cursor is advanced to `j + tokenCount`,
which is at least the timeline length, i.e. at least one past the word
used for `end` but possibly more. -/
theorem confirmed_match_end_rule {sentence : List Char} {wordData : List Word}
    {i : Nat} {prev : List MappedSentence} {c j : Nat}
    (h : findMatch sentence wordData c = some j) :
    (findSentenceTimestamps sentence wordData i prev c).1
      = (wordData.getD j dWord).start ∧
    (endThreshold sentence < min (j + tokenCount sentence + 10) wordData.length - j →
      findSentenceTimestamps sentence wordData i prev c =
        ((wordData.getD j dWord).start,
         (wordData.getD (j + endThreshold sentence) dWord).«end»,
         j + endThreshold sentence + 1)) ∧
    (min (j + tokenCount sentence + 10) wordData.length - j ≤ endThreshold sentence →
      findSentenceTimestamps sentence wordData i prev c =
        ((wordData.getD j dWord).start,
         (wordData.getD (wordData.length - 1) dWord).«end»,
         j + tokenCount sentence) ∧
      wordData.length ≤ j + tokenCount sentence) := by
  refine ⟨?_, ?_, ?_⟩
  · rw [findST_matched h]
    split <;> rfl
  · intro hc
    rw [findST_matched h, if_pos hc]
  · intro hc
    have hov := matched_overshoot h (by omega)
    rw [findST_matched h, if_neg (by omega), hov.2]
    exact ⟨rfl, hov.1⟩

/-- C4, witness at the exact-match input: confirmation at word 0 with
`endThreshold sHello = 5` inside the window. -/
theorem confirmed_match_end_rule_witness :
    findMatch sHello wordsHello 0 = some 0 ∧
    findSentenceTimestamps sHello wordsHello 0 [] 0 =
      ((wordsHello.getD 0 dWord).start,
       (wordsHello.getD (0 + endThreshold sHello) dWord).«end»,
       0 + endThreshold sHello + 1) := by
  have h : findMatch sHello wordsHello 0 = some 0 := by decide
  exact ⟨h, (confirmed_match_end_rule h).2.1 (by decide)⟩

/-- C5: every emitted record's `mid_timestamp` is the 2-decimal rounding
of `start + (end - start) / 2` computed from the same raw `start`/`end`
whose roundings are the emitted `start_timestamp` and `end_timestamp`. -/
theorem mid_timestamp_rule {cleaned_sentences : List (List Char)}
    {wordData : List Word} {out : List MappedSentence}
    (h : map_sentences_to_timestamps cleaned_sentences wordData = Except.ok out) :
    ∀ r ∈ out, ∃ s e : ℚ, r.start_timestamp = round2 s ∧ r.end_timestamp = round2 e ∧
      r.mid_timestamp = round2 (s + (e - s) / 2) := by
  intro r hr
  cases wordData with
  | nil =>
    rw [show map_sentences_to_timestamps cleaned_sentences []
        = Except.ok [] from rfl] at h
    cases h
    simp at hr
  | cons w ws =>
    rw [show map_sentences_to_timestamps cleaned_sentences (w :: ws)
        = Except.ok (mapLoop (w :: ws) cleaned_sentences 0 [] 0) from rfl] at h
    cases h
    rcases mapLoop_mem_shape (w :: ws) cleaned_sentences 0 [] 0 r hr with hmem | hshape
    · simp at hmem
    · exact hshape

/-- C5, witness: the record emitted for the exact-match input. -/
theorem mid_timestamp_rule_witness :
    ∃ s e : ℚ, (⟨0, sHello, 0, 2, 1⟩ : MappedSentence).start_timestamp = round2 s ∧
      (⟨0, sHello, 0, 2, 1⟩ : MappedSentence).end_timestamp = round2 e ∧
      (⟨0, sHello, 0, 2, 1⟩ : MappedSentence).mid_timestamp = round2 (s + (e - s) / 2) :=
  mid_timestamp_rule
    (show map_sentences_to_timestamps [sHello] wordsHello
        = Except.ok [⟨0, sHello, 0, 2, 1⟩] from rfl)
    ⟨0, sHello, 0, 2, 1⟩ (List.mem_singleton.mpr rfl)

/-- C6: when a sentence fails to confirm any match in the forward scan,
its raw start is the previous TimedSentence's `end_timestamp + 0.5` (or 0
for the first sentence), its raw end is `start + max(3, 0.4 * tokenCount)`
seconds, and the Search Cursor is advanced by a 50-word skip bounded by
the timeline length.  (`prev = [] ↔ i = 0` is the call pattern of the
driver loop, whose `previous_sentences` list holds exactly the records of
the sentences before index `i`.) -/
theorem fallback_rule {sentence : List Char} {wordData : List Word}
    {i : Nat} {prev : List MappedSentence} {c : Nat}
    (hfail : findMatch sentence wordData c = none)
    (hlink : prev = [] ↔ i = 0) :
    findSentenceTimestamps sentence wordData i prev c =
      (if i = 0 then 0 else (prev.getLastD dMapped).end_timestamp + 1 / 2,
       (if i = 0 then (0 : ℚ) else (prev.getLastD dMapped).end_timestamp + 1 / 2) +
         max 3 ((tokenCount sentence : ℚ) * (2 / 5)),
       min (c + 50) wordData.length) := by
  rw [findST_fallback hfail]
  by_cases hi : i = 0
  · have hprev : prev = [] := hlink.mpr hi
    simp [hi, hprev]
  · have hprev : prev ≠ [] := fun hp => hi (hlink.mp hp)
    simp [hi, hprev, Nat.pos_of_ne_zero hi]

/-- C6, witness: the unmatchable sentence `sZzz` against `wordsABC` as the
first sentence: start 0, end `0 + max(3, 0.4) = 3`, cursor
`min(0 + 50, 3) = 3`. -/
theorem fallback_rule_witness :
    findSentenceTimestamps sZzz wordsABC 0 [] 0 = (0, 3, 3) := by
  rw [@fallback_rule sZzz wordsABC 0 [] 0 (by decide) (by simp)]
  decide

theorem findST_start {sentence : List Char} {wordData : List Word}
    {i : Nat} {prev : List MappedSentence} {c j : Nat}
    (h : findMatch sentence wordData c = some j) :
    (findSentenceTimestamps sentence wordData i prev c).1
      = (wordData.getD j dWord).start := by
  rw [findST_matched h]
  split <;> rfl

theorem findMatch_none_of_ge {sentence : List Char} {wordData : List Word} {c : Nat}
    (h : wordData.length ≤ c) : findMatch sentence wordData c = none := by
  unfold findMatch
  rw [Nat.sub_eq_zero_of_le h]
  rfl

theorem mapLoop_two (wordData : List Word) (s1 s2 : List Char) :
    mapLoop wordData [s1, s2] 0 [] 0
      = [firstRecord s1 wordData, secondRecord s1 s2 wordData] := rfl

theorem firstRecord_end (s1 : List Char) (wordData : List Word) :
    (firstRecord s1 wordData).end_timestamp
      = round2 (findSentenceTimestamps s1 wordData 0 [] 0).2.1 := rfl

theorem secondRecord_start (s1 s2 : List Char) (wordData : List Word) :
    (secondRecord s1 s2 wordData).start_timestamp
      = round2 (findSentenceTimestamps s2 wordData 1 [firstRecord s1 wordData]
          (findSentenceTimestamps s1 wordData 0 [] 0).2.2).1 := rfl

/-- C7: two sentences aligned in order against a non-overlapping,
temporally ordered timeline, where sentence 1's probe is confirmed.  The
two output intervals satisfy `start[1] >= end[0]`; moreover, whenever
sentence 2 takes the fallback path, its start is sentence 1's emitted end
plus 0.5 seconds (which also preserves `start[1] >= end[0]`).  (If
sentence 2's probe is confirmed, its match index is at or after the
cursor left by sentence 1, by construction of the forward scan.) -/
theorem sequential_sentences_no_overlap {wordData : List Word} {s1 s2 : List Char}
    {j1 : Nat} (hord : OrderedTimeline wordData)
    (h1 : findMatch s1 wordData 0 = some j1) :
    ∃ r0 r1, map_sentences_to_timestamps [s1, s2] wordData = Except.ok [r0, r1] ∧
      r0.end_timestamp ≤ r1.start_timestamp ∧
      (findMatch s2 wordData (findSentenceTimestamps s1 wordData 0 [] 0).2.2 = none →
        r1.start_timestamp = r0.end_timestamp + 1 / 2) := by
  have hb1 := findMatch_bounds h1
  cases wordData with
  | nil => exact absurd hb1.2 (by simp)
  | cons w ws =>
    refine ⟨firstRecord s1 (w :: ws), secondRecord s1 s2 (w :: ws), ?_, ?_, ?_⟩
    · rw [show map_sentences_to_timestamps [s1, s2] (w :: ws)
          = Except.ok (mapLoop (w :: ws) [s1, s2] 0 [] 0) from rfl, mapLoop_two]
    · cases h2 : findMatch s2 (w :: ws)
          ((findSentenceTimestamps s1 (w :: ws) 0 [] 0).2.2) with
      | none =>
        have hF2 := @fallback_rule s2 (w :: ws) 1 [firstRecord s1 (w :: ws)]
          ((findSentenceTimestamps s1 (w :: ws) 0 [] 0).2.2) h2 (by simp)
        rw [show List.getLastD [firstRecord s1 (w :: ws)] dMapped
            = firstRecord s1 (w :: ws) from rfl, if_neg Nat.one_ne_zero] at hF2
        rw [secondRecord_start, hF2]
        dsimp only
        rw [firstRecord_end, round2_add_half]
        linarith
      | some j2 =>
        by_cases hcase : endThreshold s1 <
            min (j1 + tokenCount s1 + 10) (w :: ws).length - j1
        · have hF1 : findSentenceTimestamps s1 (w :: ws) 0 [] 0
              = (((w :: ws).getD j1 dWord).start,
                 ((w :: ws).getD (j1 + endThreshold s1) dWord).«end»,
                 j1 + endThreshold s1 + 1) := by
            rw [findST_matched h1, if_pos hcase]
          rw [hF1] at h2
          dsimp only at h2
          have hb2 := findMatch_bounds h2
          rw [firstRecord_end, secondRecord_start, hF1]
          dsimp only
          rw [findST_start h2]
          exact round2_mono (ord_end_le_start hord (by omega) hb2.2)
        · have hov := matched_overshoot h1 (by omega)
          have hF1 : findSentenceTimestamps s1 (w :: ws) 0 [] 0
              = (((w :: ws).getD j1 dWord).start,
                 ((w :: ws).getD ((w :: ws).length - 1) dWord).«end»,
                 j1 + tokenCount s1) := by
            rw [findST_matched h1, if_neg (by omega), hov.2]
          rw [hF1] at h2
          dsimp only at h2
          rw [findMatch_none_of_ge hov.1] at h2
          exact Option.noConfusion h2
    · cases h2 : findMatch s2 (w :: ws)
          ((findSentenceTimestamps s1 (w :: ws) 0 [] 0).2.2) with
      | none =>
        intro _
        have hF2 := @fallback_rule s2 (w :: ws) 1 [firstRecord s1 (w :: ws)]
          ((findSentenceTimestamps s1 (w :: ws) 0 [] 0).2.2) h2 (by simp)
        rw [show List.getLastD [firstRecord s1 (w :: ws)] dMapped
            = firstRecord s1 (w :: ws) from rfl, if_neg Nat.one_ne_zero] at hF2
        rw [secondRecord_start, hF2]
        dsimp only
        rw [firstRecord_end, round2_add_half]
      | some j2 =>
        intro hn
        exact Option.noConfusion hn

/-- C7, witness: the two phrases of `wordsGreek` in order; sentence 1 is
confirmed at word 0. -/
theorem sequential_sentences_no_overlap_witness :
    ∃ r0 r1, map_sentences_to_timestamps [s1Greek, s2Greek] wordsGreek
        = Except.ok [r0, r1] ∧
      r0.end_timestamp ≤ r1.start_timestamp ∧
      (findMatch s2Greek wordsGreek
          (findSentenceTimestamps s1Greek wordsGreek 0 [] 0).2.2 = none →
        r1.start_timestamp = r0.end_timestamp + 1 / 2) :=
  @sequential_sentences_no_overlap wordsGreek s1Greek s2Greek 0
    ⟨by decide, by simp only [wordsGreek, List.chain'_cons, List.chain'_singleton]; decide⟩
    (by decide)

/-- C8: the spec's exact-match scenario: one sentence, six words from 0.0s
to 2.0s; the single output record starts at 0, ends at or before 2, with
its mid between them. -/
theorem exact_match_scenario :
    ∃ r : MappedSentence,
      map_sentences_to_timestamps [sHello] wordsHello = Except.ok [r] ∧
      r.start_timestamp = 0 ∧ r.end_timestamp ≤ 2 ∧
      r.start_timestamp ≤ r.mid_timestamp ∧ r.mid_timestamp ≤ r.end_timestamp := by
  refine ⟨⟨0, sHello, 0, 2, 1⟩, rfl, rfl, by decide, by decide, by decide⟩

/-- C9: `validate_timestamps` on a non-empty list reports `valid` exactly
when every consecutive pair neither overlaps (`start[i] >= end[i-1]`) nor
leaves a gap above 30 seconds; on the empty list it returns the
`valid = false` no-data report (with its error message) and raises
nothing. -/
theorem validate_timestamps_rule :
    validate_timestamps [] = ValidationReport.noData "No sentences to validate".toList ∧
    ∀ ms : List MappedSentence, ms ≠ [] →
      (reportValid (validate_timestamps ms) = true ↔
        ∀ i, 0 < i → i < ms.length →
          (ms.getD (i - 1) dMapped).end_timestamp ≤ (ms.getD i dMapped).start_timestamp ∧
          (ms.getD i dMapped).start_timestamp -
            (ms.getD (i - 1) dMapped).end_timestamp ≤ 30) := by
  refine ⟨rfl, ?_⟩
  intro ms hne
  cases ms with
  | nil => exact absurd rfl hne
  | cons m0 rest =>
    have hn : (m0 :: rest).length = rest.length + 1 := rfl
    have hval : reportValid (validate_timestamps (m0 :: rest))
        = (((List.range' 1 ((m0 :: rest).length - 1)).filterMap (fun i =>
            if ((m0 :: rest).getD i dMapped).start_timestamp <
                ((m0 :: rest).getD (i - 1) dMapped).end_timestamp
            then some (Issue.overlap i) else none)) ++
          ((List.range' 1 ((m0 :: rest).length - 1)).filterMap (fun i =>
            if 30 < ((m0 :: rest).getD i dMapped).start_timestamp -
                ((m0 :: rest).getD (i - 1) dMapped).end_timestamp
            then some (Issue.largeGap i
              (((m0 :: rest).getD i dMapped).start_timestamp -
               ((m0 :: rest).getD (i - 1) dMapped).end_timestamp)) else none))).isEmpty := rfl
    rw [hval, List.isEmpty_iff, List.append_eq_nil,
      List.filterMap_eq_nil_iff, List.filterMap_eq_nil_iff]
    constructor
    · rintro ⟨hov, hgp⟩ i hi0 hin
      have hmem : i ∈ List.range' 1 ((m0 :: rest).length - 1) :=
        List.mem_range'_1.mpr (by omega)
      have h1 := hov i hmem
      have h2 := hgp i hmem
      constructor
      · by_contra hlt
        rw [if_pos (not_le.mp hlt)] at h1
        exact Option.noConfusion h1
      · by_contra hgt
        rw [if_pos (not_le.mp hgt)] at h2
        exact Option.noConfusion h2
    · intro h
      constructor
      · intro i hmem
        have hm := List.mem_range'_1.mp hmem
        have hh := h i (by omega) (by omega)
        rw [if_neg (not_lt.mpr hh.1)]
      · intro i hmem
        have hm := List.mem_range'_1.mp hmem
        have hh := h i (by omega) (by omega)
        rw [if_neg (not_lt.mpr hh.2)]

/-- C9, witness: a valid two-record list (gap 1 second). -/
theorem validate_timestamps_rule_witness :
    reportValid (validate_timestamps
      [⟨0, [], 0, 2, 1⟩, ⟨1, [], 3, 5, 4⟩]) = true := by
  rw [validate_timestamps_rule.2 [⟨0, [], 0, 2, 1⟩, ⟨1, [], 3, 5, 4⟩] (by simp)]
  intro i hi0 hin
  have hi : i = 1 := by
    have h2 : i < 2 := by simpa using hin
    omega
  subst hi
  exact ⟨by decide, by decide⟩

/-- C10: the alignment is deterministic: equal sentence streams and equal
word timelines produce equal output sequences.  (The embedded
computation is a pure function of its two inputs; the file dump and
console prints of the Python code do not feed back into the returned
records.) -/
theorem alignment_deterministic {ss1 ss2 : List (List Char)} {w1 w2 : List Word}
    (hs : ss1 = ss2) (hw : w1 = w2) :
    map_sentences_to_timestamps ss1 w1 = map_sentences_to_timestamps ss2 w2 := by
  subst hs
  subst hw
  rfl

/-- C10, witness: two invocations at the exact-match input. -/
theorem alignment_deterministic_witness :
    map_sentences_to_timestamps [sHello] wordsHello
      = map_sentences_to_timestamps [sHello] wordsHello :=
  alignment_deterministic rfl rfl
